import Mathlib

/-!
Shallow embedding of `src/t_stress.c` (ringbuf stress harness) and proofs of
the specification claims about it.

Buffers of `unsigned char` are modelled as functions `Nat → Nat` whose values
are bytes (`< 256`) wherever the C program writes them; machine arithmetic on
`uint32_t` is modelled as `Nat` arithmetic with explicit `% 2^32`.
-/

namespace Stress

/-! ### Definitions -/

/-- A byte buffer: index → byte value. -/
def Buf : Type := Nat → Nat

/-- Constant `RBUF_SIZE` (512) from t_stress.c. -/
def RBUF_SIZE : Nat := 512

/-- Constant `MAGIC_BYTE` (0x5a) from t_stress.c. -/
def MAGIC_BYTE : Nat := 0x5a

/-- Capacity handed to `ringbuf_setup(ringbuf, RBUF_SIZE)` in `run_test`. -/
def RING_CAPACITY : Nat := RBUF_SIZE

/-- Size `sizeof(buf)` of the producer's local buffer:
`unsigned char buf[MIN((1 << CHAR_BIT), RBUF_SIZE)]`. -/
def GEN_BUFSZ : Nat := min (2 ^ 8) RBUF_SIZE

/-- Initial value of the thread-local `fast_random_seed` (= 5381). -/
def fast_random_seed_init : Nat := 5381

/-- The xorshift body of `fast_random`:
`x ^= x << 13; x ^= x >> 17; x ^= x << 5;` on a `uint32_t`. -/
def xorshift32 (s : Nat) : Nat :=
  let x0 := s % 2 ^ 32
  let x1 := (x0 ^^^ (x0 <<< 13)) % 2 ^ 32
  let x2 := (x1 ^^^ (x1 >>> 17)) % 2 ^ 32
  (x2 ^^^ (x2 <<< 5)) % 2 ^ 32

/-- Model of `fast_random()`: returns the new value and stores it back into the seed,
so the result and the successor seed are the same 32-bit value. -/
def fast_random (s : Nat) : Nat × Nat :=
  let x := xorshift32 s
  (x, x)

/-- Pointwise update of a buffer (a single `buf[i] = v` store). -/
def upd (f : Buf) (i v : Nat) : Buf :=
  fun j => if j = i then v else f j

/-- The payload-filling loop of `generate_message`:
`while (n--) { buf[i] = '!' + (fast_random() % ('~' - '!')); cksum ^= buf[i]; i++; }`.
Returns (buffer, i, cksum, seed) after the loop. -/
def genLoop (buf : Buf) (i n cksum seed : Nat) : Buf × Nat × Nat × Nat :=
  match n with
  | 0 => (buf, i, cksum, seed)
  | Nat.succ m =>
    let r := xorshift32 seed
    let b := 33 + r % 93
    genLoop (upd buf i b) (i + 1) m (cksum ^^^ b) r

/-- Model of `generate_message(buf, buflen)`: picks `len = fast_random() % (buflen - 2)`,
fills `buf[1..len]` with printable bytes, writes the checksum at `buf[len+1]`
and the length (as an `unsigned char`) at `buf[0]`; returns
(buffer, return value `i = len + 2`, final seed). -/
def generate_message (buf : Buf) (seed buflen : Nat) : Buf × Nat × Nat :=
  let r0 := xorshift32 seed
  let len := r0 % (buflen - 2)
  let out := genLoop buf 1 len 0 r0
  let buf2 := upd out.1 out.2.1 out.2.2.1
  let buf3 := upd buf2 0 (len % 256)
  (buf3, out.2.1 + 1, out.2.2.2)

/-- The checksum loop of `verify_message`:
`while (len--) { cksum ^= buf[i++]; }`. -/
def cksumLoop (buf : Buf) (i n cksum : Nat) : Nat :=
  match n with
  | 0 => cksum
  | Nat.succ m => cksumLoop buf (i + 1) m (cksum ^^^ buf i)

/-- Plain exclusive-or of the `n` bytes `buf i, …, buf (i+n-1)`. -/
def xorBytes (buf : Buf) (i : Nat) : Nat → Nat
  | 0 => 0
  | Nat.succ m => buf i ^^^ xorBytes buf (i + 1) m

/-- Model of `verify_message(buf)`: reads the length byte, recomputes the xor over that
many following bytes, compares with the checksum byte; `-1` on mismatch,
`length + 2` on match (as an `ssize_t`). -/
def verify_message (buf : Buf) : Int :=
  let len := buf 0
  let cksum := cksumLoop buf 1 len 0
  if buf (len + 1) ≠ cksum then -1
  else (len : Int) + 2

/-- The chosen payload length of `generate_message`:
`len = fast_random() % (buflen - 2)`. -/
def gmLen (seed buflen : Nat) : Nat := xorshift32 seed % (buflen - 2)

/-- Model of `memset(p, v, n)` over a buffer. -/
def memsetF (f : Buf) (v n : Nat) : Buf :=
  fun j => if j < n then v else f j

/-- The array `static uint8_t rbuf[RBUF_SIZE + 1]` after
`memset(rbuf, MAGIC_BYTE, sizeof(rbuf))` in `run_test` (static storage is
zero before the memset). -/
def rbufInit : Buf := memsetF (fun _ => 0) MAGIC_BYTE (RBUF_SIZE + 1)

/-- Model of `memcpy(&rbuf[off], data, data.length)`: the only way any worker writes
the shared region. -/
def writeBytes (f : Buf) (off : Nat) (data : List Nat) : Buf :=
  fun j => if off ≤ j ∧ j < off + data.length then data.getD (j - off) 0 else f j

/-- The shared region after a sequence of producer copy-ins
(offset, copied bytes), starting from the freshly initialized `rbuf`. -/
def applyCopies (evs : List (Nat × List Nat)) : Buf :=
  evs.foldl (fun f e => writeBytes f e.1 e.2) rbufInit

/-- Ring-buffer calls a worker iteration performs, in order. -/
inductive Effect where
  | consumeE (len off : Nat)
  | releaseE (n : Nat)
  | acquireE (len : Nat) (resp : Int)
  | copyE (off : Nat) (data : List Nat)
  | produceE
deriving DecidableEq

/-- The individual `assert` statements of `ringbuf_stress`. -/
inductive AssertId where
  | guardA        -- assert(rbuf[RBUF_SIZE] == MAGIC_BYTE)
  | consumerOffA  -- assert(off < RBUF_SIZE) on the consumer path
  | producerOffA  -- assert(off < RBUF_SIZE) on the producer path
  | decodePosA    -- assert(ret > 0)
  | decodeBoundA  -- assert(ret <= (ssize_t)rem)
deriving DecidableEq

/-- Outcome of a piece of the loop body: a value, or a failed assertion. -/
inductive IterOut (α : Type) where
  | ok (a : α)
  | fail (which : AssertId)
deriving DecidableEq

/-- The consumer's inner decode loop:
`while (rem) { ret = verify_message(&rbuf[off]); assert(ret > 0);
assert(ret <= (ssize_t)rem); off += ret, rem -= ret; }`.
Returns the total number of bytes consumed. -/
def decodeLoop (rb : Buf) (off rem : Nat) : IterOut Nat :=
  if _h0 : rem = 0 then .ok 0
  else
    let ret := verify_message (fun j => rb (off + j))
    if _h1 : ret ≤ 0 then .fail .decodePosA
    else if _h2 : (rem : Int) < ret then .fail .decodeBoundA
    else
      match decodeLoop rb (off + ret.toNat) (rem - ret.toNat) with
      | .ok n => .ok (ret.toNat + n)
      | .fail a => .fail a
termination_by rem
decreasing_by omega

/-- One consumer iteration (`id == 0` branch), given the reply
`(len, off)` of `ringbuf_consume`. -/
def consumerIter (rb : Buf) (len off : Nat) : IterOut (List Effect) :=
  if rb RBUF_SIZE ≠ MAGIC_BYTE then .fail .guardA
  else if len = 0 then .ok [.consumeE len off]
  else if RBUF_SIZE ≤ off then .fail .consumerOffA
  else
    match decodeLoop rb off len with
    | .ok _ => .ok [.consumeE len off, .releaseE len]
    | .fail a => .fail a

/-- The bytes `memcpy` copies out of the producer's local buffer:
`buf[0..len)`. -/
def frameBytes (lbuf : Buf) (len : Nat) : List Nat :=
  (List.range len).map lbuf

/-- One producer iteration (`id != 0` branch), given the local stack buffer's
initial (garbage) contents `g` and the reply `resp` of `ringbuf_acquire`.
Returns the updated shared region, the new RNG seed, and the effects. -/
def producerIter (rb g : Buf) (seed : Nat) (resp : Int) :
    IterOut (Buf × Nat × List Effect) :=
  if rb RBUF_SIZE ≠ MAGIC_BYTE then .fail .guardA
  else
    let out := generate_message g seed (GEN_BUFSZ - 1)
    let len := out.2.1
    if resp = -1 then .ok (rb, out.2.2, [.acquireE len resp])
    else
      let off := (resp % (2 ^ 64 : Int)).toNat  -- (size_t)ret
      if RBUF_SIZE ≤ off then .fail .producerOffA
      else .ok (writeBytes rb off (frameBytes out.1 len), out.2.2,
        [.acquireE len resp, .copyE off (frameBytes out.1 len), .produceE])

/-- Contract (spec §6) of `ringbuf_acquire`: `-1`, or an offset in
`[0, capacity)` (the harness calls `ringbuf_setup(ringbuf, RBUF_SIZE)`). -/
def acquireContract (resp : Int) : Prop :=
  resp = -1 ∨ (0 ≤ resp ∧ resp < (RING_CAPACITY : Int))

/-- Contract (spec §6) of `ringbuf_consume`: a nonzero claimed length comes with an
offset in `[0, capacity)`. -/
def consumeContract (len off : Nat) : Prop :=
  len ≠ 0 → off < RING_CAPACITY

/-- Predicate: `rbuf[off .. off+rem)` is a back-to-back concatenation of well-formed
frames. -/
inductive FramesAt (rb : Buf) : Nat → Nat → Prop where
  | nil (off : Nat) : FramesAt rb off 0
  | cons (off rem : Nat)
      (hck : rb (off + rb off + 1) = xorBytes (fun j => rb (off + j)) 1 (rb off))
      (hle : rb off + 2 ≤ rem)
      (hrest : FramesAt rb (off + (rb off + 2)) (rem - (rb off + 2)))
      : FramesAt rb off rem

/-- The producer's `while (!stop)` loop: the stop flag is read once at the
top of each iteration; `fuel` bounds the number of iterations observed.  The
shared-region contents seen at each iteration are supplied by `rbs`
(producers race with each other), the acquire replies by `resps`. -/
def producerLoop (g : Buf) (rbs : Nat → Buf) (stops : Nat → Bool)
    (resps : Nat → Int) (seed t fuel : Nat) : IterOut (Nat × List Effect) :=
  match fuel with
  | 0 => .ok (seed, [])
  | Nat.succ fuel' =>
    if stops t then .ok (seed, [])
    else
      match producerIter (rbs t) g seed (resps t) with
      | .fail a => .fail a
      | .ok (_, s', effs) =>
        match producerLoop g rbs stops resps s' (t + 1) fuel' with
        | .fail a => .fail a
        | .ok (s'', effs') => .ok (s'', effs ++ effs')

/-- The consumer's `while (!stop)` loop, with the consume replies supplied
by `cresps`. -/
def consumerLoop (rbs : Nat → Buf) (stops : Nat → Bool)
    (cresps : Nat → Nat × Nat) (t fuel : Nat) : IterOut (List Effect) :=
  match fuel with
  | 0 => .ok []
  | Nat.succ fuel' =>
    if stops t then .ok []
    else
      match consumerIter (rbs t) (cresps t).1 (cresps t).2 with
      | .fail a => .fail a
      | .ok effs =>
        match consumerLoop rbs stops cresps (t + 1) fuel' with
        | .fail a => .fail a
        | .ok effs' => .ok (effs ++ effs')

/-- A successful acquire (reply not `-1`). -/
def isAcqOk : Effect → Bool
  | .acquireE _ r => if r = -1 then false else true
  | _ => false

def isProduceE : Effect → Bool
  | .produceE => true
  | _ => false

/-- A nonzero consume claim. -/
def isConsumeNZ : Effect → Bool
  | .consumeE l _ => if l = 0 then false else true
  | _ => false

def isReleaseE : Effect → Bool
  | .releaseE _ => true
  | _ => false

def countE (p : Effect → Bool) (l : List Effect) : Nat := (l.filter p).length

/-- The sequence of frames a producer generates from a given initial seed
(each iteration encodes into a fresh local buffer and the copied-out bytes
are `buf[0..len)`). -/
def messageSeq : Nat → Nat → List (List Nat)
  | _, 0 => []
  | seed, Nat.succ n =>
    let out := generate_message (fun _ => 0) seed (GEN_BUFSZ - 1)
    frameBytes out.1 out.2.1 :: messageSeq out.2.2 n

/-! ### Theorems -/

theorem cksumLoop_eq_xorBytes (buf : Buf) (n : Nat) :
    ∀ i c, cksumLoop buf i n c = c ^^^ xorBytes buf i n := by
  induction n with
  | zero => intro i c; simp [cksumLoop, xorBytes]
  | succ m ih =>
    intro i c
    simp only [cksumLoop, xorBytes, ih]
    rw [Nat.xor_assoc]

theorem xorBytes_congr (n : Nat) :
    ∀ (f g : Buf) i, (∀ j, i ≤ j → j < i + n → f j = g j) →
      xorBytes f i n = xorBytes g i n := by
  induction n with
  | zero => intro f g i _; rfl
  | succ m ih =>
    intro f g i h
    simp only [xorBytes]
    rw [h i le_rfl (by omega), ih f g (i + 1) (fun j h1 h2 => h j (by omega) (by omega))]

theorem genLoop_i (n : Nat) :
    ∀ buf i c s, (genLoop buf i n c s).2.1 = i + n := by
  induction n with
  | zero => intro buf i c s; simp [genLoop]
  | succ m ih =>
    intro buf i c s
    simp only [genLoop, ih]
    omega

theorem genLoop_lower (n : Nat) :
    ∀ buf i c s j, j < i → (genLoop buf i n c s).1 j = buf j := by
  induction n with
  | zero => intro buf i c s j _; rfl
  | succ m ih =>
    intro buf i c s j hj
    simp only [genLoop]
    rw [ih _ _ _ _ j (by omega), upd]
    simp only [if_neg (by omega : ¬ j = i)]

theorem genLoop_upper (n : Nat) :
    ∀ buf i c s j, i + n ≤ j → (genLoop buf i n c s).1 j = buf j := by
  induction n with
  | zero => intro buf i c s j _; rfl
  | succ m ih =>
    intro buf i c s j hj
    simp only [genLoop]
    rw [ih _ _ _ _ j (by omega), upd]
    simp only [if_neg (by omega : ¬ j = i)]

/-- The checksum accumulated by `genLoop` is the xor of the bytes it wrote:
any buffer `g` that agrees with the loop's output on the written range has
`cksumLoop g i n c` equal to the loop's final checksum. -/
theorem genLoop_cksum (n : Nat) :
    ∀ buf i c s (g : Buf),
      (∀ j, i ≤ j → j < i + n → g j = (genLoop buf i n c s).1 j) →
      cksumLoop g i n c = (genLoop buf i n c s).2.2.1 := by
  induction n with
  | zero => intro buf i c s g _; rfl
  | succ m ih =>
    intro buf i c s g hg
    simp only [genLoop, cksumLoop]
    have hgi : g i = 33 + xorshift32 s % 93 := by
      have h1 := hg i le_rfl (by omega)
      have h2 := genLoop_lower m (upd buf i (33 + xorshift32 s % 93)) (i + 1)
        (c ^^^ (33 + xorshift32 s % 93)) (xorshift32 s) i (by omega)
      simp only [genLoop] at h1
      rw [h1, h2, upd, if_pos rfl]
    rw [hgi]
    exact ih _ _ _ _ g (fun j h1 h2 => by
      have := hg j (by omega) (by omega)
      simpa [genLoop] using this)

/-- Every byte written by `genLoop` lies in the printable range `[33, 126)`. -/
theorem genLoop_range (n : Nat) :
    ∀ buf i c s j, i ≤ j → j < i + n →
      33 ≤ (genLoop buf i n c s).1 j ∧ (genLoop buf i n c s).1 j < 126 := by
  induction n with
  | zero => intro buf i c s j h1 h2; omega
  | succ m ih =>
    intro buf i c s j h1 h2
    simp only [genLoop]
    by_cases hji : j = i
    · subst hji
      rw [genLoop_lower m _ _ _ _ j (by omega), upd, if_pos rfl]
      have : xorshift32 s % 93 < 93 := Nat.mod_lt _ (by omega)
      omega
    · exact ih _ _ _ _ j (by omega) (by omega)

theorem upd_eq (f : Buf) (i v : Nat) : upd f i v i = v := by simp [upd]

theorem upd_ne {j i : Nat} (f : Buf) (v : Nat) (h : j ≠ i) : upd f i v j = f j := by
  simp [upd, h]

theorem xor_shuffle (a x v : Nat) : (a ^^^ x) ^^^ (a ^^^ v) = v ^^^ x := by
  rw [Nat.xor_assoc a x (a ^^^ v), ← Nat.xor_assoc x a v, Nat.xor_comm x a,
    Nat.xor_assoc a x v, Nat.xor_cancel_left, Nat.xor_comm]

/-- Changing one byte inside the xored range xors its old and new value into
the result. -/
theorem xorBytes_upd (n : Nat) :
    ∀ (buf : Buf) i k v, i ≤ k → k < i + n →
      xorBytes (upd buf k v) i n = xorBytes buf i n ^^^ (buf k ^^^ v) := by
  induction n with
  | zero => intro buf i k v h1 h2; exact absurd h2 (by omega)
  | succ m ih =>
    intro buf i k v h1 h2
    by_cases hk : k = i
    · subst hk
      simp only [xorBytes]
      rw [upd_eq,
        xorBytes_congr m (upd buf k v) buf (k + 1)
          (fun j hj1 hj2 => upd_ne _ _ (by omega)),
        xor_shuffle]
    · simp only [xorBytes]
      rw [upd_ne _ _ (by omega : i ≠ k),
        ih buf (i + 1) k v (by omega) (by omega), Nat.xor_assoc]

/-- A buffer holding a well-formed frame at offset 0 verifies to `length + 2`. -/
theorem verify_of_frame (buf : Buf) (L : Nat) (h0 : buf 0 = L)
    (hck : buf (L + 1) = xorBytes buf 1 L) :
    verify_message buf = (L : Int) + 2 := by
  simp [verify_message, cksumLoop_eq_xorBytes, h0, hck]

/-- Full postcondition of `generate_message` for `3 ≤ buflen ≤ 256`. -/
theorem gm_spec (g : Buf) (seed buflen : Nat) (h3 : 3 ≤ buflen) (h256 : buflen ≤ 256) :
    gmLen seed buflen < buflen - 2
    ∧ (generate_message g seed buflen).1 0 = gmLen seed buflen
    ∧ (∀ j, 1 ≤ j → j ≤ gmLen seed buflen →
        33 ≤ (generate_message g seed buflen).1 j ∧ (generate_message g seed buflen).1 j < 126)
    ∧ (generate_message g seed buflen).1 (gmLen seed buflen + 1)
        = xorBytes (generate_message g seed buflen).1 1 (gmLen seed buflen)
    ∧ (∀ j, gmLen seed buflen + 1 < j → (generate_message g seed buflen).1 j = g j)
    ∧ (generate_message g seed buflen).2.1 = gmLen seed buflen + 2 := by
  have hlt : gmLen seed buflen < buflen - 2 := by
    unfold gmLen; exact Nat.mod_lt _ (by omega)
  have hmod : gmLen seed buflen % 256 = gmLen seed buflen :=
    Nat.mod_eq_of_lt (by omega)
  have hbuf : (generate_message g seed buflen).1
      = upd (upd (genLoop g 1 (gmLen seed buflen) 0 (xorshift32 seed)).1
               (genLoop g 1 (gmLen seed buflen) 0 (xorshift32 seed)).2.1
               (genLoop g 1 (gmLen seed buflen) 0 (xorshift32 seed)).2.2.1)
          0 (gmLen seed buflen % 256) := rfl
  have hi : (genLoop g 1 (gmLen seed buflen) 0 (xorshift32 seed)).2.1
      = 1 + gmLen seed buflen := genLoop_i _ _ _ _ _
  have hagree : ∀ j, 1 ≤ j → j < 1 + gmLen seed buflen →
      (generate_message g seed buflen).1 j
        = (genLoop g 1 (gmLen seed buflen) 0 (xorshift32 seed)).1 j := by
    intro j h1 h2
    rw [hbuf, upd_ne _ _ (by omega), upd_ne _ _ (by rw [hi]; omega)]
  refine ⟨hlt, ?_, ?_, ?_, ?_, ?_⟩
  · rw [hbuf, upd_eq, hmod]
  · intro j h1 h2
    rw [hagree j h1 (by omega)]
    exact genLoop_range _ _ _ _ _ j h1 (by omega)
  · have hL : (generate_message g seed buflen).1 (gmLen seed buflen + 1)
        = (genLoop g 1 (gmLen seed buflen) 0 (xorshift32 seed)).2.2.1 := by
      rw [hbuf, upd_ne _ _ (by omega),
        show gmLen seed buflen + 1
            = (genLoop g 1 (gmLen seed buflen) 0 (xorshift32 seed)).2.1 from by
          rw [hi]; omega]
      exact upd_eq _ _ _
    have hX : xorBytes (generate_message g seed buflen).1 1 (gmLen seed buflen)
        = (genLoop g 1 (gmLen seed buflen) 0 (xorshift32 seed)).2.2.1 := by
      have h := genLoop_cksum (gmLen seed buflen) g 1 0 (xorshift32 seed)
        (generate_message g seed buflen).1 (fun j hj1 hj2 => hagree j hj1 hj2)
      rw [cksumLoop_eq_xorBytes, Nat.zero_xor] at h
      exact h
    rw [hL, hX]
  · intro j hj
    rw [hbuf, upd_ne _ _ (by omega), upd_ne _ _ (by rw [hi]; omega)]
    exact genLoop_upper _ _ _ _ _ j (by omega)
  · have hr : (generate_message g seed buflen).2.1
        = (genLoop g 1 (gmLen seed buflen) 0 (xorshift32 seed)).2.1 + 1 := rfl
    rw [hr, hi]; omega

/-- C1. Encode/decode round-trip: on any buffer holding a well-formed frame
(length byte `L`, then `L` payload bytes, then the xor of those bytes)
`verify_message` returns `L + 2`; and for every RNG seed and every capacity
`buflen` with `3 ≤ buflen ≤ 256`, `verify_message` applied to the buffer
written by `generate_message` returns exactly the value `generate_message`
returned. -/
theorem claim_C1 :
    (∀ (buf : Buf) (L : Nat), buf 0 = L → buf (L + 1) = xorBytes buf 1 L →
        verify_message buf = (L : Int) + 2)
    ∧ (∀ (g : Buf) (seed buflen : Nat), 3 ≤ buflen → buflen ≤ 256 →
        verify_message (generate_message g seed buflen).1
          = ((generate_message g seed buflen).2.1 : Int)) := by
  refine ⟨fun buf L h0 hck => verify_of_frame buf L h0 hck, ?_⟩
  intro g seed buflen h3 h256
  obtain ⟨-, h0, -, hck, -, hret⟩ := gm_spec g seed buflen h3 h256
  rw [hret, verify_of_frame (generate_message g seed buflen).1 (gmLen seed buflen) h0 hck]
  push_cast
  ring

theorem claim_C1_witness :
    3 ≤ 255 ∧ 255 ≤ 256 ∧
      verify_message (generate_message (fun _ => 0) 5381 255).1
        = ((generate_message (fun _ => 0) 5381 255).2.1 : Int) :=
  ⟨by decide, by decide, claim_C1.2 (fun _ => 0) 5381 255 (by decide) (by decide)⟩

/-- C2. Corruption detection: `verify_message` returns `-1` exactly when the
checksum byte following the declared payload differs from the xor of the
payload bytes; consequently, on a valid frame with payload length `≥ 1`,
changing any single payload byte to a different value makes `verify_message`
return `-1`. -/
theorem claim_C2 :
    (∀ buf : Buf, verify_message buf = -1 ↔ buf (buf 0 + 1) ≠ xorBytes buf 1 (buf 0))
    ∧ (∀ (buf : Buf) (L k v : Nat), buf 0 = L → buf (L + 1) = xorBytes buf 1 L →
        1 ≤ k → k ≤ L → v ≠ buf k → verify_message (upd buf k v) = -1) := by
  constructor
  · intro buf
    simp only [verify_message, cksumLoop_eq_xorBytes, Nat.zero_xor]
    split
    · simp_all
    · simp_all
      omega
  · intro buf L k v h0 hck hk1 hkL hv
    have h0' : upd buf k v 0 = L := by rw [upd_ne _ _ (by omega)]; exact h0
    have hcs : upd buf k v (L + 1) = xorBytes buf 1 L := by
      rw [upd_ne _ _ (by omega)]; exact hck
    have hxb : xorBytes (upd buf k v) 1 L = xorBytes buf 1 L ^^^ (buf k ^^^ v) :=
      xorBytes_upd L buf 1 k v hk1 (by omega)
    simp only [verify_message, cksumLoop_eq_xorBytes, Nat.zero_xor, h0', hcs, hxb]
    rw [if_pos]
    intro heq
    have hd : buf k ^^^ v = 0 := by
      have := congrArg (fun t => xorBytes buf 1 L ^^^ t) heq
      simpa [Nat.xor_cancel_left, Nat.xor_self] using this.symm
    exact hv (Nat.xor_eq_zero.mp hd).symm

theorem claim_C2_witness :
    verify_message
      (upd (fun j => if j = 0 then 1 else if j = 1 then 7 else if j = 2 then 7 else 0) 1 9)
      = -1 :=
  claim_C2.2 (fun j => if j = 0 then 1 else if j = 1 then 7 else if j = 2 then 7 else 0)
    1 1 9 (by decide) (by decide) (by decide) (by decide) (by decide)

/-- C3. Encode postcondition: for every seed and capacity `3 ≤ buflen ≤ 256`,
`generate_message` chooses `len = fast_random() % (buflen - 2) < buflen - 2`,
writes `len` into byte 0, fills bytes `1..len` with printable characters from
the fixed range `['!', '~')`, writes the xor of the payload at index
`len + 1`, touches no byte at any index beyond `len + 1`, and returns
`len + 2`. -/
theorem claim_C3 (g : Buf) (seed buflen : Nat) (h3 : 3 ≤ buflen) (h256 : buflen ≤ 256) :
    xorshift32 seed % (buflen - 2) < buflen - 2
    ∧ (generate_message g seed buflen).1 0 = xorshift32 seed % (buflen - 2)
    ∧ (∀ j, 1 ≤ j → j ≤ xorshift32 seed % (buflen - 2) →
        33 ≤ (generate_message g seed buflen).1 j
          ∧ (generate_message g seed buflen).1 j < 126)
    ∧ (generate_message g seed buflen).1 (xorshift32 seed % (buflen - 2) + 1)
        = xorBytes (generate_message g seed buflen).1 1 (xorshift32 seed % (buflen - 2))
    ∧ (∀ j, xorshift32 seed % (buflen - 2) + 1 < j →
        (generate_message g seed buflen).1 j = g j)
    ∧ (generate_message g seed buflen).2.1 = xorshift32 seed % (buflen - 2) + 2 :=
  gm_spec g seed buflen h3 h256

theorem claim_C3_witness :
    3 ≤ 255 ∧
      (generate_message (fun _ => 1) 99 255).2.1 = xorshift32 99 % (255 - 2) + 2 :=
  ⟨by decide, (claim_C3 (fun _ => 1) 99 255 (by decide) (by decide)).2.2.2.2.2⟩

/-- C9. Zero-length frame: when the chosen payload length is 0,
`generate_message` writes the 2-byte frame `[0x00, 0x00]` and returns 2, and
`verify_message` on that buffer returns 2. -/
theorem claim_C9 (g : Buf) (seed buflen : Nat)
    (hlen0 : xorshift32 seed % (buflen - 2) = 0) :
    (generate_message g seed buflen).2.1 = 2
    ∧ (generate_message g seed buflen).1 0 = 0
    ∧ (generate_message g seed buflen).1 1 = 0
    ∧ verify_message (generate_message g seed buflen).1 = 2 := by
  have hbuf : generate_message g seed buflen
      = (upd (upd g 1 0) 0 0, 2, xorshift32 seed) := by
    simp [generate_message, hlen0, genLoop]
  rw [hbuf]
  refine ⟨rfl, by simp [upd], by simp [upd], ?_⟩
  have h := verify_of_frame (upd (upd g 1 0) 0 0) 0 (by simp [upd])
    (by simp [upd, xorBytes])
  simpa using h

theorem claim_C9_witness :
    xorshift32 5381 % (3 - 2) = 0
      ∧ verify_message (generate_message (fun _ => 0) 5381 3).1 = 2 :=
  ⟨by decide, (claim_C9 (fun _ => 0) 5381 3 (by decide)).2.2.2⟩

theorem writeBytes_out (f : Buf) (off : Nat) (data : List Nat) (j : Nat)
    (h : off + data.length ≤ j) : writeBytes f off data j = f j := by
  unfold writeBytes
  rw [if_neg (by omega)]

theorem applyCopies_guard (evs : List (Nat × List Nat))
    (h : ∀ e ∈ evs, e.1 + e.2.length ≤ RBUF_SIZE) :
    applyCopies evs RBUF_SIZE = MAGIC_BYTE := by
  have key : ∀ (l : List (Nat × List Nat)) (f : Buf),
      (∀ e ∈ l, e.1 + e.2.length ≤ RBUF_SIZE) → f RBUF_SIZE = MAGIC_BYTE →
      (l.foldl (fun f e => writeBytes f e.1 e.2) f) RBUF_SIZE = MAGIC_BYTE := by
    intro l
    induction l with
    | nil => intro f _ hf; exact hf
    | cons e tl ih =>
      intro f hl hf
      simp only [List.foldl_cons]
      exact ih _ (fun x hx => hl x (List.mem_cons_of_mem _ hx))
        (by rw [writeBytes_out _ _ _ _ (by
              have := hl e (List.mem_cons_self _ _); omega)]; exact hf)
  exact key evs rbufInit h (by unfold rbufInit memsetF RBUF_SIZE MAGIC_BYTE; simp)

/-- The only assertions the decode loop can fail are its own two. -/
theorem decodeLoop_fail (rb : Buf) : ∀ (rem off : Nat) (a : AssertId),
    decodeLoop rb off rem = .fail a → a = .decodePosA ∨ a = .decodeBoundA := by
  intro rem
  induction rem using Nat.strong_induction_on with
  | _ rem ih =>
    intro off a h
    rw [decodeLoop.eq_def] at h
    split at h
    · exact absurd h (by simp)
    · dsimp only at h
      split at h
      · cases h; exact Or.inl rfl
      · split at h
        · cases h; exact Or.inr rfl
        · split at h
          · exact absurd h (by simp)
          · rename_i heq
            cases h
            exact ih (rem - (verify_message fun j => rb (off + j)).toNat)
              (by omega) _ _ heq

/-- On a span of back-to-back valid frames the decode loop succeeds and
consumes exactly the claimed byte count. -/
theorem decodeLoop_frames (rb : Buf) (off rem : Nat) (hf : FramesAt rb off rem) :
    decodeLoop rb off rem = .ok rem := by
  induction hf with
  | nil o => rw [decodeLoop.eq_def]; simp
  | cons o r hck hle hrest ih =>
    have hv : verify_message (fun j => rb (o + j)) = ((rb o : Int) + 2) := by
      apply verify_of_frame _ (rb o) rfl
      simpa [Nat.add_assoc] using hck
    have ht : ((rb o : Int) + 2).toNat = rb o + 2 := by omega
    rw [decodeLoop.eq_def, dif_neg (by omega : ¬ r = 0)]
    dsimp only
    rw [hv, dif_neg (by omega : ¬ ((rb o : Int) + 2 ≤ 0)),
      dif_neg (by omega : ¬ ((r : Int) < (rb o : Int) + 2)), ht, ih]
    have hsum : rb o + 2 + (r - (rb o + 2)) = r := by omega
    dsimp only
    rw [hsum]

/-- C4. Guard-byte invariant: initialization sets `rbuf[RBUF_SIZE]` to
`MAGIC_BYTE`, and as long as every producer copy-in satisfies
`offset + length ≤ RBUF_SIZE`, the guard byte still equals the sentinel after
any sequence of copy-ins, i.e. at every loop-head observation point. -/
theorem claim_C4 :
    rbufInit RBUF_SIZE = MAGIC_BYTE
    ∧ ∀ evs : List (Nat × List Nat),
        (∀ e ∈ evs, e.1 + e.2.length ≤ RBUF_SIZE) →
        applyCopies evs RBUF_SIZE = MAGIC_BYTE :=
  ⟨by unfold rbufInit memsetF RBUF_SIZE MAGIC_BYTE; simp,
   fun evs h => applyCopies_guard evs h⟩

theorem claim_C4_witness :
    (∀ e ∈ [((0 : Nat), [(1 : Nat), 2, 3])], e.1 + e.2.length ≤ RBUF_SIZE)
    ∧ applyCopies [(0, [1, 2, 3])] RBUF_SIZE = MAGIC_BYTE :=
  ⟨by decide, claim_C4.2 _ (by decide)⟩

/-- C5. Offset bound: under the ring buffer's contract (acquire returns `-1`
or an offset in `[0, capacity)`; a nonzero consume returns an offset in
`[0, capacity)`), the harness's `off < RBUF_SIZE` assertions never fail: the
producer iteration cannot fail its offset assertion (and the offset it uses
is `< RBUF_SIZE`), and the consumer iteration cannot fail its offset
assertion. -/
theorem claim_C5 :
    (∀ (rb g : Buf) (seed : Nat) (resp : Int), acquireContract resp →
        producerIter rb g seed resp ≠ .fail .producerOffA
        ∧ (resp ≠ -1 → (resp % (2 ^ 64 : Int)).toNat < RBUF_SIZE))
    ∧ (∀ (rb : Buf) (len off : Nat), consumeContract len off →
        consumerIter rb len off ≠ .fail .consumerOffA) := by
  constructor
  · intro rb g seed resp hc
    rcases hc with h1 | ⟨h0, hlt⟩
    · subst h1
      refine ⟨?_, fun hne => absurd rfl hne⟩
      unfold producerIter
      split
      · simp
      · simp
    · have hc512 : RING_CAPACITY = 512 := rfl
      have hrb512 : RBUF_SIZE = 512 := rfl
      have hmod : resp % (2 ^ 64 : Int) = resp :=
        Int.emod_eq_of_lt h0 (by omega)
      have hoff : (resp % (2 ^ 64 : Int)).toNat < RBUF_SIZE := by
        rw [hmod]; omega
      refine ⟨?_, fun _ => hoff⟩
      unfold producerIter
      split
      · simp
      · dsimp only
        rw [if_neg (by omega : ¬ resp = -1), if_neg (by omega : ¬ RBUF_SIZE ≤ (resp % (2 ^ 64 : Int)).toNat)]
        simp
  · intro rb len off hc
    unfold consumerIter
    split
    · simp
    · split
      · simp
      · rename_i hlen
        rw [if_neg (by
          have := hc hlen
          unfold RING_CAPACITY at this
          omega)]
        split
        · simp
        · rename_i a heq
          have := decodeLoop_fail rb len off a heq
          rcases this with h | h <;> simp [h]

theorem claim_C5_witness :
    acquireContract 5
    ∧ producerIter rbufInit (fun _ => 0) 5381 5 ≠ .fail .producerOffA
    ∧ consumeContract 0 0
    ∧ consumerIter rbufInit 0 0 ≠ .fail .consumerOffA :=
  ⟨Or.inr (by unfold RING_CAPACITY RBUF_SIZE; omega),
   (claim_C5.1 rbufInit (fun _ => 0) 5381 5
     (Or.inr (by unfold RING_CAPACITY RBUF_SIZE; omega))).1,
   fun h => absurd rfl h,
   claim_C5.2 rbufInit 0 0 (fun h => absurd rfl h)⟩

/-- C6. Consumer full-span consumption: when `ringbuf_consume` returns a
nonzero `len` at an in-range offset and `rbuf[off .. off+len)` is a
back-to-back concatenation of valid frames, the decode loop consumes exactly
`len` bytes without failing any assertion and the iteration ends with
`ringbuf_release(len)` (preceded only by the `consume` call itself). -/
theorem claim_C6 (rb : Buf) (len off : Nat) (hlen : len ≠ 0)
    (hoff : off < RBUF_SIZE) (hguard : rb RBUF_SIZE = MAGIC_BYTE)
    (hf : FramesAt rb off len) :
    decodeLoop rb off len = .ok len
    ∧ consumerIter rb len off = .ok [.consumeE len off, .releaseE len] := by
  have hd := decodeLoop_frames rb off len hf
  refine ⟨hd, ?_⟩
  unfold consumerIter
  rw [if_neg (by simp [hguard]), if_neg hlen, if_neg (by omega), hd]

theorem claim_C6_witness :
    consumerIter (fun j => if j = RBUF_SIZE then MAGIC_BYTE else 0) 2 0
      = .ok [.consumeE 2 0, .releaseE 2] := by
  have hf : FramesAt (fun j => if j = RBUF_SIZE then MAGIC_BYTE else 0) 0 2 := by
    refine FramesAt.cons 0 2 (by decide) (by decide) ?_
    exact FramesAt.nil 2
  exact (claim_C6 _ 2 0 (by decide) (by decide) (by decide) hf).2

/-- C7. Producer takes no action on a full buffer: when `ringbuf_acquire`
answers `-1`, the producer iteration returns the shared region unchanged
(the very same buffer) and its only recorded ring-buffer call is the failed
acquire — no copy-in, no `produce`, no `release`. -/
theorem claim_C7 (rb g : Buf) (seed : Nat) (hguard : rb RBUF_SIZE = MAGIC_BYTE) :
    producerIter rb g seed (-1)
      = .ok (rb, (generate_message g seed (GEN_BUFSZ - 1)).2.2,
          [.acquireE (generate_message g seed (GEN_BUFSZ - 1)).2.1 (-1)])
    ∧ ∀ e ∈ [Effect.acquireE (generate_message g seed (GEN_BUFSZ - 1)).2.1 (-1)],
        (∀ o d, e ≠ .copyE o d) ∧ e ≠ .produceE ∧ ∀ n, e ≠ .releaseE n := by
  constructor
  · unfold producerIter
    rw [if_neg (by simp [hguard])]
    rfl
  · intro e he
    rw [List.mem_singleton] at he
    subst he
    exact ⟨fun o d => by simp, by simp, fun n => by simp⟩

theorem claim_C7_witness :
    producerIter rbufInit (fun _ => 0) 5381 (-1)
      = .ok (rbufInit, (generate_message (fun _ => 0) 5381 (GEN_BUFSZ - 1)).2.2,
          [.acquireE (generate_message (fun _ => 0) 5381 (GEN_BUFSZ - 1)).2.1 (-1)]) :=
  (claim_C7 rbufInit (fun _ => 0) 5381 (by decide)).1

theorem countE_append (p : Effect → Bool) (a b : List Effect) :
    countE p (a ++ b) = countE p a + countE p b := by
  simp [countE]

/-- Shape of a completed producer iteration: a lone failed acquire, or
acquire–copy–produce back to back. -/
theorem producerIter_shape (rb g : Buf) (seed : Nat) (resp : Int)
    (rb' : Buf) (s' : Nat) (effs : List Effect)
    (h : producerIter rb g seed resp = .ok (rb', s', effs)) :
    (resp = -1 ∧ ∃ len, effs = [.acquireE len resp])
    ∨ (resp ≠ -1 ∧ ∃ len off data,
        effs = [.acquireE len resp, .copyE off data, .produceE]) := by
  unfold producerIter at h
  split at h
  · exact absurd h (by simp)
  · dsimp only at h
    split at h
    · rename_i hresp
      cases h
      exact Or.inl ⟨hresp, _, rfl⟩
    · rename_i hresp
      split at h
      · exact absurd h (by simp)
      · cases h
        exact Or.inr ⟨hresp, _, _, _, rfl⟩

/-- Shape of a completed consumer iteration: a lone empty consume, or a
nonzero consume followed by a release of the same byte count. -/
theorem consumerIter_shape (rb : Buf) (len off : Nat) (effs : List Effect)
    (h : consumerIter rb len off = .ok effs) :
    (len = 0 ∧ effs = [.consumeE len off])
    ∨ (len ≠ 0 ∧ effs = [.consumeE len off, .releaseE len]) := by
  unfold consumerIter at h
  split at h
  · exact absurd h (by simp)
  · split at h
    · rename_i hlen
      cases h
      exact Or.inl ⟨hlen, rfl⟩
    · rename_i hlen
      split at h
      · exact absurd h (by simp)
      · split at h
        · cases h
          exact Or.inr ⟨hlen, rfl⟩
        · exact absurd h (by simp)

theorem producerIter_balanced (rb g : Buf) (seed : Nat) (resp : Int)
    (rb' : Buf) (s' : Nat) (effs : List Effect)
    (h : producerIter rb g seed resp = .ok (rb', s', effs)) :
    countE isAcqOk effs = countE isProduceE effs := by
  rcases producerIter_shape rb g seed resp rb' s' effs h with
    ⟨hresp, len, rfl⟩ | ⟨hresp, len, off, data, rfl⟩
  · simp [countE, isAcqOk, isProduceE, hresp]
  · simp [countE, isAcqOk, isProduceE, hresp]

theorem consumerIter_balanced (rb : Buf) (len off : Nat) (effs : List Effect)
    (h : consumerIter rb len off = .ok effs) :
    countE isConsumeNZ effs = countE isReleaseE effs := by
  rcases consumerIter_shape rb len off effs h with ⟨hlen, rfl⟩ | ⟨hlen, rfl⟩
  · simp [countE, isConsumeNZ, isReleaseE, hlen]
  · simp [countE, isConsumeNZ, isReleaseE, hlen]

theorem producerLoop_balanced (g : Buf) (rbs : Nat → Buf) (stops : Nat → Bool)
    (resps : Nat → Int) : ∀ (fuel t seed s' : Nat) (tr : List Effect),
    producerLoop g rbs stops resps seed t fuel = .ok (s', tr) →
    countE isAcqOk tr = countE isProduceE tr := by
  intro fuel
  induction fuel with
  | zero =>
    intro t seed s' tr h
    cases h
    simp [countE]
  | succ f ih =>
    intro t seed s' tr h
    unfold producerLoop at h
    split at h
    · cases h; simp [countE]
    · split at h
      · exact absurd h (by simp)
      · rename_i hout
        split at h
        · exact absurd h (by simp)
        · rename_i hrec
          cases h
          rw [countE_append, countE_append,
            producerIter_balanced _ _ _ _ _ _ _ hout, ih _ _ _ _ hrec]

theorem consumerLoop_balanced (rbs : Nat → Buf) (stops : Nat → Bool)
    (cresps : Nat → Nat × Nat) : ∀ (fuel t : Nat) (tr : List Effect),
    consumerLoop rbs stops cresps t fuel = .ok tr →
    countE isConsumeNZ tr = countE isReleaseE tr := by
  intro fuel
  induction fuel with
  | zero =>
    intro t tr h
    cases h
    simp [countE]
  | succ f ih =>
    intro t tr h
    unfold consumerLoop at h
    split at h
    · cases h; simp [countE]
    · split at h
      · exact absurd h (by simp)
      · rename_i hout
        split at h
        · exact absurd h (by simp)
        · rename_i hrec
          cases h
          rw [countE_append, countE_append,
            consumerIter_balanced _ _ _ _ hout, ih _ _ hrec]

/-- C8. No half-finished reservation: the stop flag is checked only at the
top of each loop iteration, every completed producer iteration's trace is
either a lone failed acquire or acquire–copy–produce, every completed
consumer iteration's trace is a lone empty consume or a nonzero consume
followed by a release, and hence the full trace of a worker's loop — which
exits only at an iteration boundary — has as many `produce` calls as
successful acquires (resp. as many `release` calls as nonzero consumes): no
reservation or claim is ever left half-finished at the end barrier. -/
theorem claim_C8 :
    (∀ (rb g : Buf) (seed : Nat) (resp : Int) (rb' : Buf) (s' : Nat)
        (effs : List Effect),
        producerIter rb g seed resp = .ok (rb', s', effs) →
        (resp = -1 ∧ ∃ len, effs = [.acquireE len resp])
        ∨ (resp ≠ -1 ∧ ∃ len off data,
            effs = [.acquireE len resp, .copyE off data, .produceE]))
    ∧ (∀ (rb : Buf) (len off : Nat) (effs : List Effect),
        consumerIter rb len off = .ok effs →
        (len = 0 ∧ effs = [.consumeE len off])
        ∨ (len ≠ 0 ∧ effs = [.consumeE len off, .releaseE len]))
    ∧ (∀ (g : Buf) (rbs : Nat → Buf) (stops : Nat → Bool) (resps : Nat → Int)
        (fuel t seed s' : Nat) (tr : List Effect),
        producerLoop g rbs stops resps seed t fuel = .ok (s', tr) →
        countE isAcqOk tr = countE isProduceE tr)
    ∧ (∀ (rbs : Nat → Buf) (stops : Nat → Bool) (cresps : Nat → Nat × Nat)
        (fuel t : Nat) (tr : List Effect),
        consumerLoop rbs stops cresps t fuel = .ok tr →
        countE isConsumeNZ tr = countE isReleaseE tr) :=
  ⟨producerIter_shape, consumerIter_shape,
   fun g rbs stops resps fuel t seed s' tr h =>
     producerLoop_balanced g rbs stops resps fuel t seed s' tr h,
   fun rbs stops cresps fuel t tr h =>
     consumerLoop_balanced rbs stops cresps fuel t tr h⟩

theorem claim_C8_witness :
    countE isAcqOk
        [Effect.acquireE (generate_message (fun _ => 0) 5381 (GEN_BUFSZ - 1)).2.1 (-1)]
      = countE isProduceE
        [Effect.acquireE (generate_message (fun _ => 0) 5381 (GEN_BUFSZ - 1)).2.1 (-1)] :=
  claim_C8.2.2.1 (fun _ => 0) (fun _ => rbufInit) (fun _ => false) (fun _ => -1) 1 0 5381
    (generate_message (fun _ => 0) 5381 (GEN_BUFSZ - 1)).2.2
    [Effect.acquireE (generate_message (fun _ => 0) 5381 (GEN_BUFSZ - 1)).2.1 (-1)] rfl

/-- C10. Identical RNG sequences across threads: `fast_random` is a pure
function of the per-thread seed — equal seeds give equal results and equal
successor seeds — and since every thread's seed starts at the same constant
5381, any two producer threads generate byte-for-byte identical message
sequences. -/
theorem claim_C10 :
    (∀ s₁ s₂ : Nat, s₁ = s₂ →
        (fast_random s₁).1 = (fast_random s₂).1
        ∧ (fast_random s₁).2 = (fast_random s₂).2)
    ∧ (∀ seedA seedB : Nat, seedA = fast_random_seed_init →
        seedB = fast_random_seed_init →
        ∀ n, messageSeq seedA n = messageSeq seedB n) := by
  refine ⟨fun s₁ s₂ h => by rw [h]; exact ⟨rfl, rfl⟩, ?_⟩
  intro a b ha hb n
  rw [ha, hb]

theorem claim_C10_witness :
    (fast_random 5381).1 = (fast_random 5381).1
    ∧ messageSeq fast_random_seed_init 2 = messageSeq fast_random_seed_init 2 :=
  ⟨(claim_C10.1 5381 5381 rfl).1,
   claim_C10.2 fast_random_seed_init fast_random_seed_init rfl rfl 2⟩

end Stress
